import Mathlib

/-!
A shallow embedding of the `scoreboard` server (`app.go`): the game-log
parser (`parseGameData`) and the Elo-style rating engine (`calculateScores`,
`scoreGame`, `updateScores`), together with the sort comparators `ByID.Less`
and `ByScore.Less` used by `main`.  Rating maps are modelled as association
lists (first binding wins, new keys appended at the end), Go `int` as `Int`,
Go `float64` arithmetic as exact real arithmetic, and Go panics as
`Except.error`.
-/

/-- Embeds the Go struct `Game` from `app.go`. -/
structure Game where
  ID : String
  Date : String
  Rankings : List String
  TableZap : String
  DrawGame : String
  RankTotal : Int
  RankAverage : Int
  TwoHeadedGiant : Bool
deriving DecidableEq

/-- Embeds the Go struct `Player` (a name paired with a calculated score). -/
structure Player where
  Name : String
  Score : Int
deriving DecidableEq

/-- The rating mapping `map[string]int`, modelled as an association list in
insertion order: lookup returns the first binding, updates rewrite it in
place, and new keys are appended at the end. -/
abbrev Scores := List (String × Int)

/-- Reading `scores[player]`: the first binding for `p`, if any. -/
def lookupScore : Scores → String → Option Int
  | [], _ => none
  | (k, v) :: rest, p => if k = p then some v else lookupScore rest p

/-- Writing `scores[player] = v`: rewrite the existing binding in place, or
append a new one. -/
def setScore : Scores → String → Int → Scores
  | [], p, v => [(p, v)]
  | (k, w) :: rest, p, v =>
      if k = p then (p, v) :: rest else (k, w) :: setScore rest p v

/-- The reward curve `twoPlayers` from `app.go`. -/
def twoPlayers : List ℚ := [1, 0]

/-- The reward curve `threePlayers` from `app.go`. -/
def threePlayers : List ℚ := [1, 1/2, 0]

/-- The reward curve `fourPlayers` from `app.go`. -/
def fourPlayers : List ℚ := [1, 1/2, 1/4, 0]

/-- The reward curve `fivePlayers` from `app.go`. -/
def fivePlayers : List ℚ := [1, 1/2, 1/4, 12/100, 0]

/-- The reward curve `sixPlayers` from `app.go`. -/
def sixPlayers : List ℚ := [1, 1/2, 1/4, 12/100, 1/20, 0]

/-- The shape of `elo.RatingDelta`: old rating, opponent (field-average)
rating, and the actual score, producing an integer delta.  The engine is
parametric in it, mirroring the `*elogo.Elo` value passed through the Go
functions. -/
abbrev DeltaFn := Int → Int → ℚ → Int

/-- Modelled from the spec: the expected score of the Elo expectation
formula, `1 / (1 + 10^((ratingB − ratingA)/D))` with the default `D = 400`;
the implementation lives in the external `elogo` dependency, whose source is
not part of this repository. -/
noncomputable def expectedScore (ratingA ratingB : Int) : ℝ :=
  1 / (1 + (10 : ℝ) ^ ((((ratingB - ratingA : Int) : ℝ)) / 400))

/-- Modelled from the spec: `elo.RatingDelta ratingA ratingB score` =
`round(K × (score − expectedScore))` with the default `K = 32`; the
implementation lives in the external `elogo` dependency, whose source is not
part of this repository. -/
noncomputable def ratingDelta (ratingA ratingB : Int) (score : ℚ) : Int :=
  round ((32 : ℝ) * ((score : ℝ) - expectedScore ratingA ratingB))

/-- The seeding/summing loop at the top of `scoreGame`: for each ranked
player, insert a `1500` binding when absent, and accumulate `rankTotal` from
the (possibly just-seeded) current ratings. -/
def seedAndTotal : Scores → List String → Scores × Int
  | s, [] => (s, 0)
  | s, p :: rest =>
      let s1 := match lookupScore s p with
        | some _ => s
        | none => s ++ [(p, 1500)]
      let v := (lookupScore s1 p).getD 0
      let st := seedAndTotal s1 rest
      (st.1, v + st.2)

/-- The `switch` in `updateScores`: pick the reward-curve entry for a game of
`n` players at position `idx` and apply the delta function; any `n` outside
2–6 falls through to the zero delta. -/
def positionDelta (delta : DeltaFn) (n idx : ℕ) (playerScore rankAverage : Int) : Int :=
  match n with
  | 2 => delta playerScore rankAverage (twoPlayers.getD idx 0)
  | 3 => delta playerScore rankAverage (threePlayers.getD idx 0)
  | 4 => delta playerScore rankAverage (fourPlayers.getD idx 0)
  | 5 => delta playerScore rankAverage (fivePlayers.getD idx 0)
  | 6 => delta playerScore rankAverage (sixPlayers.getD idx 0)
  | _ => 0

/-- The reward-weight table `w(n, i)` of the spec, read off the five reward
curves of `app.go`: the weight of finish position `i` in an `n`-player game
(zero outside the 2–6 player range, where the `switch` falls through). -/
def rewardWeight (n i : ℕ) : ℚ :=
  match n with
  | 2 => twoPlayers.getD i 0
  | 3 => threePlayers.getD i 0
  | 4 => fourPlayers.getD i 0
  | 5 => fivePlayers.getD i 0
  | 6 => sixPlayers.getD i 0
  | _ => 0

/-- The loop body of `updateScores`, recursing over the remaining ranked
players with the running position index `idx`. -/
def updateScoresAux (delta : DeltaFn) (n : ℕ) (rankAverage : Int) :
    ℕ → Scores → List String → Scores
  | _, s, [] => s
  | idx, s, p :: rest =>
      let playerScore := (lookupScore s p).getD 0
      let d := positionDelta delta n idx playerScore rankAverage
      updateScoresAux delta n rankAverage (idx + 1) (setScore s p (playerScore + d)) rest

/-- Embeds `updateScores` from `app.go`: walk the rankings in order, applying
each player's delta to the shared mapping. -/
def updateScores (delta : DeltaFn) (scores : Scores) (game : Game) : Scores :=
  updateScoresAux delta game.Rankings.length game.RankAverage 0 scores game.Rankings

/-- Embeds `scoreGame` from `app.go`: reject games with fewer than two
players, seed missing participants at 1500, compute `rankTotal` and the
truncating integer average, attach them to the game, and apply the rewards. -/
def scoreGame (delta : DeltaFn) (scores : Scores) (game : Game) :
    Except String (Scores × Game) :=
  let numPlayers := game.Rankings.length
  if numPlayers < 2 then
    .error "invalid game: not enough players"
  else
    let st := seedAndTotal scores game.Rankings
    let rankAverage := Int.tdiv st.2 (numPlayers : Int)
    let g := { game with RankAverage := rankAverage, RankTotal := st.2 }
    .ok (updateScores delta st.1 g, g)

/-- The loop of `calculateScores`, started from an arbitrary current mapping:
a failed `scoreGame` is logged and skipped, a successful one replaces the
mapping. -/
def calculateScoresFrom (delta : DeltaFn) (scores : Scores) : List Game → Scores
  | [] => scores
  | g :: rest =>
      match scoreGame delta scores g with
      | .error _ => calculateScoresFrom delta scores rest
      | .ok r => calculateScoresFrom delta r.1 rest

/-- Embeds `calculateScores` from `app.go`, parametric in the delta function
carried by the `elogo.Elo` value. -/
def calculateScoresWith (delta : DeltaFn) (games : List Game) : Scores :=
  calculateScoresFrom delta [] games

/-- `calculateScores` with `elogo.NewElo()`: the spec-modelled default delta
function (K = 32, D = 400). -/
noncomputable def calculateScores (games : List Game) : Scores :=
  calculateScoresWith ratingDelta games

/-- Embeds `strings.Trim(name, " ")`: strip leading and trailing space
characters (only U+0020, the cut set is the single character `" "`). -/
def trimSpaces (s : String) : String :=
  String.mk (((s.data.dropWhile (fun c => c = ' ')).reverse.dropWhile
    (fun c => c = ' ')).reverse)

/-- Embeds `strings.Contains(name, "/")` for the one-character team
separator. -/
def containsSlash (s : String) : Bool :=
  s.data.contains '/'

/-- The player-cell loop of `parseGameData`: trim each cell, divert cells
containing the team separator into the `twoHeadedGiant` flag, and append the
rest to the rankings in order. -/
def parsePlayers (cells : List String) : List String × Bool :=
  cells.foldl
    (fun acc cell =>
      let name := trimSpaces cell
      if containsSlash name then (acc.1, true) else (acc.1 ++ [name], acc.2))
    ([], false)

/-- The per-row body of `parseGameData` for a non-header row with at least 4
columns: read the four metadata columns, slice the player cells from column
5 on (a Go panic when the row has fewer than 5 columns), and drop the game
when the two-headed-giant flag was set.  `Except.error` models the panic,
`Option.none` a dropped game. -/
def parseRowBody (row : List String) : Except String (Option Game) :=
  if 5 ≤ row.length then
    let pr := parsePlayers (row.drop 5)
    let g : Game :=
      { ID := row.getD 0 ""
        Date := row.getD 1 ""
        Rankings := pr.1
        TableZap := row.getD 2 ""
        DrawGame := row.getD 3 ""
        RankTotal := 0
        RankAverage := 0
        TwoHeadedGiant := pr.2 }
    if g.TwoHeadedGiant then .ok none else .ok (some g)
  else
    .error "runtime error: slice bounds out of range"

/-- The row loop of `parseGameData`, carrying the row index: rows with fewer
than 4 columns are skipped as malformed, the header row (index 0) is
skipped, and the parsed games of the remaining rows are collected in order. -/
def parseGameDataAux : ℕ → List (List String) → Except String (List Game)
  | _, [] => .ok []
  | idx, row :: rest =>
      if row.length < 4 then parseGameDataAux (idx + 1) rest
      else if idx = 0 then parseGameDataAux (idx + 1) rest
      else
        match parseRowBody row with
        | .error e => .error e
        | .ok none => parseGameDataAux (idx + 1) rest
        | .ok (some g) => (parseGameDataAux (idx + 1) rest).map (g :: ·)

/-- Embeds `parseGameData` from `app.go`. -/
def parseGameData (values : List (List String)) : Except String (List Game) :=
  parseGameDataAux 0 values

/-- Go's `<` on strings (byte-wise lexicographic; on UTF-8 data this agrees
with code-point lexicographic order), on the underlying character lists. -/
def charListLt : List Char → List Char → Bool
  | [], [] => false
  | [], _ :: _ => true
  | _ :: _, [] => false
  | a :: as, b :: bs => if a < b then true else if b < a then false else charListLt as bs

/-- Embeds `ByID.Less` from `app.go`: `g[i].ID < g[j].ID` as Go string
comparison. -/
def byIDLess (a b : Game) : Bool :=
  charListLt a.ID.data b.ID.data

/-- Embeds `ByScore.Less` from `app.go`: `g[i].Score > g[j].Score`. -/
def byScoreLess (a b : Player) : Bool :=
  decide (b.Score < a.Score)

/-- The postcondition of Go's (unstable) `sort.Sort` for `ByID`: the output
is a permutation of the input in which no later game is `ByID`-less than an
earlier one. -/
def isByIDSortOutput (inp out : List Game) : Prop :=
  out.Perm inp ∧ out.Pairwise (fun a b => byIDLess b a = false)

instance (inp out : List Game) : Decidable (isByIDSortOutput inp out) := by
  unfold isByIDSortOutput; infer_instance

/-- The postcondition of Go's (unstable) `sort.Sort` for `ByScore`: the
output is a permutation of the input in which no later player is
`ByScore`-less than an earlier one. -/
def isByScoreSortOutput (inp out : List Player) : Prop :=
  out.Perm inp ∧ out.Pairwise (fun a b => byScoreLess b a = false)

instance (inp out : List Player) : Decidable (isByScoreSortOutput inp out) := by
  unfold isByScoreSortOutput; infer_instance

/-- The ranking-collection loop in `main`: one `Player` per binding of the
rating mapping (Go iterates the map in unspecified order; this lists the
bindings in insertion order, other orders being permutations of it). -/
def playersOfScores (scores : Scores) : List Player :=
  scores.map (fun kv => { Name := kv.1, Score := kv.2 })

/-- A game record carrying only an ID, for exercising the ID comparator. -/
def gameWithID (i : String) : Game :=
  { ID := i, Date := "", Rankings := [], TableZap := "", DrawGame := "",
    RankTotal := 0, RankAverage := 0, TwoHeadedGiant := false }

/-- A two-player game: `winner` finishes first, `loser` second. -/
def duel (id winner loser : String) : Game :=
  { ID := id, Date := "", Rankings := [winner, loser], TableZap := "",
    DrawGame := "", RankTotal := 0, RankAverage := 0, TwoHeadedGiant := false }

/-! ### Association-list lemmas -/

theorem lookup_setScore_self (s : Scores) (p : String) (v : Int) :
    lookupScore (setScore s p v) p = some v := by
  induction s with
  | nil => simp [setScore, lookupScore]
  | cons kv rest ih =>
      obtain ⟨k, w⟩ := kv
      by_cases hk : k = p
      · simp [setScore, lookupScore, hk]
      · simp [setScore, lookupScore, hk, ih]

theorem lookup_setScore_ne (s : Scores) (p q : String) (v : Int) (h : q ≠ p) :
    lookupScore (setScore s p v) q = lookupScore s q := by
  induction s with
  | nil => simp [setScore, lookupScore, Ne.symm h]
  | cons kv rest ih =>
      obtain ⟨k, w⟩ := kv
      by_cases hk : k = p
      · subst hk
        simp [setScore, lookupScore, Ne.symm h]
      · simp [setScore, lookupScore, hk, ih]

theorem setScore_lookup_eq (s : Scores) (p : String) (v : Int)
    (h : lookupScore s p = some v) : setScore s p v = s := by
  induction s with
  | nil => simp [lookupScore] at h
  | cons kv rest ih =>
      obtain ⟨k, w⟩ := kv
      by_cases hk : k = p
      · subst hk
        simp [lookupScore] at h
        simp [setScore, h]
      · simp [lookupScore, hk] at h
        simp [setScore, hk, ih h]

theorem lookup_setScore_isSome (s : Scores) (p q : String) (v : Int)
    (h : (lookupScore s q).isSome) : (lookupScore (setScore s p v) q).isSome := by
  by_cases hq : q = p
  · subst hq; simp [lookup_setScore_self]
  · rw [lookup_setScore_ne s p q v hq]; exact h

theorem lookup_append (s t : Scores) (q : String) :
    lookupScore (s ++ t) q =
      match lookupScore s q with
      | some v => some v
      | none => lookupScore t q := by
  induction s with
  | nil => simp [lookupScore]
  | cons kv rest ih =>
      obtain ⟨k, w⟩ := kv
      by_cases hk : k = q
      · simp [lookupScore, hk]
      · simp [lookupScore, hk, ih]

/-! ### Seeding lemmas -/

theorem seedAndTotal_lookup_eq (s : Scores) (ps : List String) (q : String) (v : Int)
    (h : lookupScore s q = some v) :
    lookupScore (seedAndTotal s ps).1 q = some v := by
  induction ps generalizing s with
  | nil => simpa [seedAndTotal] using h
  | cons p rest ih =>
      rcases hp : lookupScore s p with _ | w
      · have h' : lookupScore (s ++ [(p, 1500)]) q = some v := by
          simp [lookup_append, h]
        simpa [seedAndTotal, hp] using ih (s ++ [(p, 1500)]) h'
      · simpa [seedAndTotal, hp] using ih s h

theorem seedAndTotal_lookup_isSome (s : Scores) (ps : List String) (q : String)
    (h : (lookupScore s q).isSome) : (lookupScore (seedAndTotal s ps).1 q).isSome := by
  rcases Option.isSome_iff_exists.mp h with ⟨v, hv⟩
  rw [seedAndTotal_lookup_eq s ps q v hv]
  rfl

theorem seedAndTotal_lookup_new (s : Scores) (ps : List String) (p : String)
    (hmem : p ∈ ps) (habs : lookupScore s p = none) :
    lookupScore (seedAndTotal s ps).1 p = some 1500 := by
  induction ps generalizing s with
  | nil => cases hmem
  | cons q rest ih =>
      by_cases hq : q = p
      · subst hq
        have hlook : lookupScore (s ++ [(q, 1500)]) q = some 1500 := by
          simp [lookup_append, habs, lookupScore]
        simpa [seedAndTotal, habs] using
          seedAndTotal_lookup_eq (s ++ [(q, 1500)]) rest q 1500 hlook
      · have hmem' : p ∈ rest := by
          rcases List.mem_cons.mp hmem with h | h
          · exact absurd h.symm hq
          · exact h
        rcases hs : lookupScore s q with _ | w
        · have habs' : lookupScore (s ++ [(q, 1500)]) p = none := by
            simp [lookup_append, habs, lookupScore, hq]
          simpa [seedAndTotal, hs] using ih (s ++ [(q, 1500)]) hmem' habs'
        · simpa [seedAndTotal, hs] using ih s hmem' habs

theorem seedAndTotal_lookup_mem (s : Scores) (ps : List String) (p : String)
    (hmem : p ∈ ps) : (lookupScore (seedAndTotal s ps).1 p).isSome := by
  rcases hp : lookupScore s p with _ | v
  · rw [seedAndTotal_lookup_new s ps p hmem hp]; rfl
  · exact seedAndTotal_lookup_isSome s ps p (by simp [hp])

/-! ### Update-loop lemmas -/

theorem positionDelta_of_big (delta : DeltaFn) (k idx : ℕ) (ps avg : Int) :
    positionDelta delta (k + 7) idx ps avg = 0 := rfl

theorem updateScoresAux_lookup_not_mem (delta : DeltaFn) (n : ℕ) (avg : Int)
    (l : List String) (idx : ℕ) (s : Scores) (p : String) (hp : p ∉ l) :
    lookupScore (updateScoresAux delta n avg idx s l) p = lookupScore s p := by
  induction l generalizing idx s with
  | nil => rfl
  | cons q rest ih =>
      have hqp : p ≠ q := fun h => hp (h ▸ List.mem_cons_self q rest)
      have hrest : p ∉ rest := fun h => hp (List.mem_cons_of_mem q h)
      rw [updateScoresAux, ih _ _ hrest, lookup_setScore_ne _ _ _ _ hqp]

theorem updateScoresAux_lookup_isSome (delta : DeltaFn) (n : ℕ) (avg : Int)
    (l : List String) (idx : ℕ) (s : Scores) (q : String)
    (h : (lookupScore s q).isSome) :
    (lookupScore (updateScoresAux delta n avg idx s l) q).isSome := by
  induction l generalizing idx s with
  | nil => exact h
  | cons p rest ih =>
      rw [updateScoresAux]
      exact ih _ _ (lookup_setScore_isSome _ _ _ _ h)

theorem updateScoresAux_lookup_get (delta : DeltaFn) (n : ℕ) (avg : Int)
    (l : List String) (idx : ℕ) (s : Scores) (i : ℕ)
    (hnd : l.Nodup) (hi : i < l.length) :
    lookupScore (updateScoresAux delta n avg idx s l) (l.get ⟨i, hi⟩) =
      some ((lookupScore s (l.get ⟨i, hi⟩)).getD 0 +
        positionDelta delta n (idx + i)
          ((lookupScore s (l.get ⟨i, hi⟩)).getD 0) avg) := by
  revert hnd hi
  induction l generalizing idx s i with
  | nil => intro _ hi; cases hi
  | cons p rest ih =>
      intro hnd hi
      have hp : p ∉ rest := (List.nodup_cons.mp hnd).1
      have hndr : rest.Nodup := (List.nodup_cons.mp hnd).2
      cases i with
      | zero =>
          have h0 : (p :: rest).get ⟨0, hi⟩ = p := rfl
          simp only [updateScoresAux, h0]
          rw [updateScoresAux_lookup_not_mem delta n avg rest _ _ p hp,
            lookup_setScore_self, Nat.add_zero]
      | succ j =>
          have hj : j < rest.length := Nat.lt_of_succ_lt_succ hi
          have hq : rest.get ⟨j, hj⟩ ∈ rest := List.get_mem rest j hj
          have hqp : rest.get ⟨j, hj⟩ ≠ p := fun h => hp (h ▸ hq)
          have hs : (p :: rest).get ⟨j + 1, hi⟩ = rest.get ⟨j, hj⟩ := rfl
          have ha : idx + 1 + j = idx + (j + 1) := by omega
          simp only [updateScoresAux, hs]
          rw [ih _ _ _ hndr hj, lookup_setScore_ne _ _ _ _ hqp, ha]

theorem updateScoresAux_zero_id (delta : DeltaFn) (n : ℕ) (avg : Int)
    (l : List String) (idx : ℕ) (s : Scores)
    (hz : ∀ idx' ps, positionDelta delta n idx' ps avg = 0)
    (hpres : ∀ p ∈ l, (lookupScore s p).isSome) :
    updateScoresAux delta n avg idx s l = s := by
  induction l generalizing idx s with
  | nil => rfl
  | cons p rest ih =>
      rcases Option.isSome_iff_exists.mp (hpres p (List.mem_cons_self p rest)) with ⟨v, hv⟩
      simp only [updateScoresAux, hz, hv, Option.getD_some, Int.add_zero]
      rw [setScore_lookup_eq s p v hv]
      exact ih _ _ (fun q hq => hpres q (List.mem_cons_of_mem p hq))

/-! ### scoreGame and calculateScores lemmas -/

theorem positionDelta_eq_rewardWeight (delta : DeltaFn) (n idx : ℕ) (ps avg : Int)
    (h2 : 2 ≤ n) (h6 : n ≤ 6) :
    positionDelta delta n idx ps avg = delta ps avg (rewardWeight n idx) := by
  interval_cases n <;> rfl

theorem scoreGame_error_of_small (delta : DeltaFn) (s : Scores) (g : Game)
    (h : g.Rankings.length < 2) :
    scoreGame delta s g = .error "invalid game: not enough players" := by
  simp [scoreGame, h]

theorem scoreGame_ok_of_ge (delta : DeltaFn) (s : Scores) (g : Game)
    (h : 2 ≤ g.Rankings.length) :
    scoreGame delta s g =
      .ok (updateScores delta (seedAndTotal s g.Rankings).1
            { g with
                RankAverage :=
                  Int.tdiv (seedAndTotal s g.Rankings).2 (g.Rankings.length : Int)
                RankTotal := (seedAndTotal s g.Rankings).2 },
          { g with
              RankAverage :=
                Int.tdiv (seedAndTotal s g.Rankings).2 (g.Rankings.length : Int)
              RankTotal := (seedAndTotal s g.Rankings).2 }) := by
  simp [scoreGame, Nat.not_lt.mpr h]

theorem calculateScoresFrom_cons_error (delta : DeltaFn) (s : Scores) (g : Game)
    (gs : List Game) (e : String) (h : scoreGame delta s g = .error e) :
    calculateScoresFrom delta s (g :: gs) = calculateScoresFrom delta s gs := by
  simp [calculateScoresFrom, h]

theorem calculateScoresFrom_cons_ok (delta : DeltaFn) (s : Scores) (g : Game)
    (gs : List Game) (r : Scores × Game) (h : scoreGame delta s g = .ok r) :
    calculateScoresFrom delta s (g :: gs) = calculateScoresFrom delta r.1 gs := by
  simp [calculateScoresFrom, h]

theorem scoreGame_lookup_isSome (delta : DeltaFn) (s : Scores) (g : Game)
    (r : Scores × Game) (q : String) (h : scoreGame delta s g = .ok r)
    (hq : (lookupScore s q).isSome) : (lookupScore r.1 q).isSome := by
  by_cases h2 : g.Rankings.length < 2
  · rw [scoreGame_error_of_small delta s g h2] at h
    cases h
  · rw [scoreGame_ok_of_ge delta s g (Nat.not_lt.mp h2)] at h
    cases h
    exact updateScoresAux_lookup_isSome _ _ _ _ _ _ _
      (seedAndTotal_lookup_isSome s g.Rankings q hq)

theorem calculateScoresFrom_lookup_isSome (delta : DeltaFn) (gs : List Game)
    (s : Scores) (q : String) (hq : (lookupScore s q).isSome) :
    (lookupScore (calculateScoresFrom delta s gs) q).isSome := by
  induction gs generalizing s with
  | nil => exact hq
  | cons g rest ih =>
      rcases hg : scoreGame delta s g with e | r
      · rw [calculateScoresFrom_cons_error delta s g rest e hg]
        exact ih s hq
      · rw [calculateScoresFrom_cons_ok delta s g rest r hg]
        exact ih r.1 (scoreGame_lookup_isSome delta s g r q hg hq)

/-! ### Parser lemmas -/

theorem mem_dropWhile_of_mem {α : Type} (p : α → Bool) (l : List α) (a : α)
    (ha : a ∈ l) (hp : p a = false) : a ∈ l.dropWhile p := by
  induction l with
  | nil => cases ha
  | cons b rest ih =>
      rcases hb : p b with _ | _
      · rw [List.dropWhile_cons, hb]
        simpa using ha
      · rw [List.dropWhile_cons, hb]
        simp only [if_pos rfl]
        rcases List.mem_cons.mp ha with h | h
        · subst h; rw [hb] at hp; cases hp
        · exact ih h

theorem mem_trimSpaces_of_mem (s : String) (c : Char) (hc : c ∈ s.data)
    (hne : c ≠ ' ') : c ∈ (trimSpaces s).data := by
  have hp : (fun x => decide (x = ' ')) c = false := by simp [hne]
  have h1 : c ∈ s.data.dropWhile (fun x => decide (x = ' ')) :=
    mem_dropWhile_of_mem _ _ _ hc hp
  have h2 : c ∈ (s.data.dropWhile (fun x => decide (x = ' '))).reverse :=
    List.mem_reverse.mpr h1
  have h3 : c ∈ ((s.data.dropWhile (fun x => decide (x = ' '))).reverse.dropWhile
      (fun x => decide (x = ' '))) := mem_dropWhile_of_mem _ _ _ h2 hp
  exact List.mem_reverse.mpr h3

theorem containsSlash_trimSpaces (s : String) (h : containsSlash s = true) :
    containsSlash (trimSpaces s) = true := by
  have hmem : '/' ∈ s.data := by
    simpa [containsSlash, List.elem_iff] using h
  have : '/' ∈ (trimSpaces s).data :=
    mem_trimSpaces_of_mem s '/' hmem (by decide)
  simpa [containsSlash, List.elem_iff] using this

theorem parsePlayers_foldl (cells : List String) (acc : List String × Bool) :
    cells.foldl
      (fun acc cell =>
        let name := trimSpaces cell
        if containsSlash name then (acc.1, true) else (acc.1 ++ [name], acc.2))
      acc =
    (acc.1 ++ (cells.map trimSpaces).filter (fun n => !(containsSlash n)),
     acc.2 || cells.any (fun c => containsSlash (trimSpaces c))) := by
  induction cells generalizing acc with
  | nil => simp
  | cons c rest ih =>
      rcases hc : containsSlash (trimSpaces c) with _ | _
      · simp [List.foldl_cons, hc, ih, List.filter_cons, List.any_cons,
          List.append_assoc]
      · simp [List.foldl_cons, hc, ih, List.filter_cons, List.any_cons]

theorem parsePlayers_eq (cells : List String) :
    parsePlayers cells =
      ((cells.map trimSpaces).filter (fun n => !(containsSlash n)),
       cells.any (fun c => containsSlash (trimSpaces c))) := by
  rw [parsePlayers, parsePlayers_foldl]
  simp

theorem parseRowBody_of_ge (row : List String) (h : 5 ≤ row.length) :
    parseRowBody row =
      (if (parsePlayers (row.drop 5)).2 then .ok none
       else .ok (some
        { ID := row.getD 0 "", Date := row.getD 1 "",
          Rankings := (parsePlayers (row.drop 5)).1,
          TableZap := row.getD 2 "", DrawGame := row.getD 3 "",
          RankTotal := 0, RankAverage := 0,
          TwoHeadedGiant := (parsePlayers (row.drop 5)).2 })) := by
  simp [parseRowBody, h]

theorem parseRowBody_error_of_lt (row : List String) (h : row.length < 5) :
    parseRowBody row = .error "runtime error: slice bounds out of range" := by
  simp [parseRowBody, Nat.not_le.mpr h]

theorem parseGameDataAux_skip_drop (idx : ℕ) (row : List String)
    (rest : List (List String)) (h4 : ¬ row.length < 4) (h0 : idx ≠ 0)
    (hdrop : parseRowBody row = .ok none) :
    parseGameDataAux idx (row :: rest) = parseGameDataAux (idx + 1) rest := by
  simp [parseGameDataAux, h4, h0, hdrop]

theorem seedAndTotal_total_eq (s : Scores) (ps : List String) :
    (seedAndTotal s ps).2 =
      (ps.map (fun p => (lookupScore (seedAndTotal s ps).1 p).getD 0)).sum := by
  induction ps generalizing s with
  | nil => rfl
  | cons p rest ih =>
      rcases hp : lookupScore s p with _ | w
      · have hl1 : lookupScore (s ++ [(p, 1500)]) p = some 1500 := by
          simp [lookup_append, hp, lookupScore]
        have hfin : lookupScore (seedAndTotal (s ++ [(p, 1500)]) rest).1 p = some 1500 :=
          seedAndTotal_lookup_eq _ rest p 1500 hl1
        simp only [seedAndTotal, hp, List.map_cons, List.sum_cons]
        rw [← ih (s ++ [(p, 1500)]), hl1, hfin]
      · have hfin : lookupScore (seedAndTotal s rest).1 p = some w :=
          seedAndTotal_lookup_eq s rest p w hp
        simp only [seedAndTotal, hp, List.map_cons, List.sum_cons]
        rw [← ih s, hfin]

/-! ### Concrete evaluations of the spec-modelled delta function -/

theorem ratingDelta_equal_win : ratingDelta 1500 1500 1 = 16 := by
  have h0 : (((1500 - 1500 : Int) : ℝ)) / 400 = 0 := by norm_num
  rw [ratingDelta, expectedScore, h0, Real.rpow_zero]
  norm_num

theorem ratingDelta_equal_loss : ratingDelta 1500 1500 0 = -16 := by
  have h0 : (((1500 - 1500 : Int) : ℝ)) / 400 = 0 := by norm_num
  rw [ratingDelta, expectedScore, h0, Real.rpow_zero]
  norm_num
  rw [round_eq]
  refine Int.floor_eq_iff.mpr ⟨by norm_num, by norm_num⟩

theorem tenpow_rate_gt : (33:ℝ)/31 < (10:ℝ) ^ ((16:ℝ)/400) := by
  have h2 : ((10:ℝ) ^ ((16:ℝ)/400)) ^ (25:ℕ) = 10 := by
    rw [← Real.rpow_natCast ((10:ℝ) ^ ((16:ℝ)/400)) 25,
      ← Real.rpow_mul (by norm_num : (0:ℝ) ≤ 10)]
    norm_num
  refine lt_of_pow_lt_pow_left₀ 25 (Real.rpow_nonneg (by norm_num) _) ?_
  rw [h2]
  norm_num

theorem underdog_win_delta : 17 ≤ ratingDelta 1484 1500 1 := by
  have hcast : (((1500 - 1484 : Int) : ℝ)) / 400 = (16:ℝ)/400 := by norm_num
  rw [ratingDelta, expectedScore, hcast]
  have hx := tenpow_rate_gt
  have hxpos : (0:ℝ) < (10:ℝ) ^ ((16:ℝ)/400) := Real.rpow_pos_of_pos (by norm_num) _
  set y := (10:ℝ) ^ ((16:ℝ)/400) with hy
  have hden : (0:ℝ) < 1 + y := by linarith
  have hE : 1/(1+y) < 31/64 := by
    rw [div_lt_div_iff₀ hden (by norm_num)]
    linarith
  rw [round_eq]
  refine Int.le_floor.mpr ?_
  push_cast
  linarith

theorem favorite_loss_delta : ratingDelta 1516 1500 0 ≤ -17 := by
  have hcast : (((1500 - 1516 : Int) : ℝ)) / 400 = -((16:ℝ)/400) := by norm_num
  rw [ratingDelta, expectedScore, hcast,
    Real.rpow_neg (by norm_num : (0:ℝ) ≤ 10)]
  have hx := tenpow_rate_gt
  have hxpos : (0:ℝ) < (10:ℝ) ^ ((16:ℝ)/400) := Real.rpow_pos_of_pos (by norm_num) _
  set y := (10:ℝ) ^ ((16:ℝ)/400) with hy
  have hinv : y⁻¹ < 31/33 := by
    have h := one_div_lt_one_div_of_lt (by norm_num : (0:ℝ) < 33/31) hx
    rw [one_div y] at h
    calc y⁻¹ < 1/(33/31) := h
    _ = 31/33 := by norm_num
  have hden : (0:ℝ) < 1 + y⁻¹ := by positivity
  have h64 : 1 + y⁻¹ < 64/33 := by linarith
  have hfrac : (33:ℝ)/2 < 32/(1+y⁻¹) := by
    rw [lt_div_iff₀ hden]
    nlinarith
  suffices h : round ((32:ℝ) * (((0:ℚ):ℝ) - 1/(1+y⁻¹))) < -16 by omega
  rw [round_eq]
  refine Int.floor_lt.mpr ?_
  push_cast
  have harith : (32:ℝ) * (0 - 1/(1+y⁻¹)) = -(32/(1+y⁻¹)) := by ring
  rw [harith]
  linarith

/-! ### Concrete two-game folds for the order-sensitivity claim -/

theorem eloFold_first_order_step1 :
    calculateScoresFrom ratingDelta [] [duel "1" "A" "B", duel "2" "B" "A"] =
    calculateScoresFrom ratingDelta
      [("A", 1500 + ratingDelta 1500 1500 1), ("B", 1500 + ratingDelta 1500 1500 0)]
      [duel "2" "B" "A"] := rfl

theorem eloFold_first_order_step2 :
    calculateScoresFrom ratingDelta [("A",1516),("B",1484)] [duel "2" "B" "A"] =
    [("A", 1516 + ratingDelta 1516 1500 0), ("B", 1484 + ratingDelta 1484 1500 1)] := rfl

theorem eloFold_first_order :
    lookupScore (calculateScores [duel "1" "A" "B", duel "2" "B" "A"]) "A" =
    some (1516 + ratingDelta 1516 1500 0) := by
  show lookupScore
    (calculateScoresFrom ratingDelta [] [duel "1" "A" "B", duel "2" "B" "A"]) "A" = _
  rw [eloFold_first_order_step1, ratingDelta_equal_win, ratingDelta_equal_loss]
  norm_num
  rw [eloFold_first_order_step2]
  rfl

theorem eloFold_second_order_step1 :
    calculateScoresFrom ratingDelta [] [duel "2" "B" "A", duel "1" "A" "B"] =
    calculateScoresFrom ratingDelta
      [("B", 1500 + ratingDelta 1500 1500 1), ("A", 1500 + ratingDelta 1500 1500 0)]
      [duel "1" "A" "B"] := rfl

theorem eloFold_second_order_step2 :
    calculateScoresFrom ratingDelta [("B",1516),("A",1484)] [duel "1" "A" "B"] =
    [("B", 1516 + ratingDelta 1516 1500 0), ("A", 1484 + ratingDelta 1484 1500 1)] := rfl

theorem eloFold_second_order :
    lookupScore (calculateScores [duel "2" "B" "A", duel "1" "A" "B"]) "A" =
    some (1484 + ratingDelta 1484 1500 1) := by
  show lookupScore
    (calculateScoresFrom ratingDelta [] [duel "2" "B" "A", duel "1" "A" "B"]) "A" = _
  rw [eloFold_second_order_step1, ratingDelta_equal_win, ratingDelta_equal_loss]
  norm_num
  rw [eloFold_second_order_step2]
  rfl

/-! ### Claims -/

/-- C3: the claim says `parseGameData` completes without failure on every
input and that rows with at least 4 columns never cause an out-of-bounds
access.  The code contradicts this: a row with exactly 4 columns passes the
`len(row) < 4` guard and then panics at the `row[5:]` slice.  This theorem
evaluates the parser at such a failing input (second conjunct: a row with at
least 5 columns does parse normally). -/
theorem parseGameData_panics_on_four_column_row :
    parseGameData [["gameID","date","notes","zap","draw","player 1"],
      ["7","2023-01-01","",""]] =
      .error "runtime error: slice bounds out of range" ∧
    parseGameData [["gameID","date","notes","zap","draw","player 1"],
      ["7","2023-01-01","","","","Alice","Bob"]] =
      .ok [{ ID := "7", Date := "2023-01-01", Rankings := ["Alice","Bob"],
             TableZap := "", DrawGame := "", RankTotal := 0, RankAverage := 0,
             TwoHeadedGiant := false }] :=
  ⟨rfl, rfl⟩

/-- C4: any row whose player cells (columns 5 and beyond) include a cell
containing the team separator `/` has its two-headed-giant flag set, keeps
no separator-containing name in its rankings, and is dropped entirely from
the parsed game sequence. -/
theorem team_separator_drops_game (row : List String) (cell : String) (idx : ℕ)
    (rest : List (List String)) (hmem : cell ∈ row.drop 5)
    (hslash : containsSlash cell = true) (hidx : idx ≠ 0) :
    (parsePlayers (row.drop 5)).2 = true ∧
    (∀ name ∈ (parsePlayers (row.drop 5)).1, containsSlash name = false) ∧
    parseRowBody row = .ok none ∧
    parseGameDataAux idx (row :: rest) = parseGameDataAux (idx + 1) rest := by
  have h5 : 5 ≤ row.length := by
    have hne : row.drop 5 ≠ [] := List.ne_nil_of_mem hmem
    by_contra hcon
    push_neg at hcon
    exact hne (List.drop_eq_nil_of_le (by omega))
  have hflag : (parsePlayers (row.drop 5)).2 = true := by
    rw [parsePlayers_eq]
    exact List.any_eq_true.mpr ⟨cell, hmem, containsSlash_trimSpaces cell hslash⟩
  have hnames : ∀ name ∈ (parsePlayers (row.drop 5)).1, containsSlash name = false := by
    intro name hname
    rw [parsePlayers_eq] at hname
    have := List.of_mem_filter hname
    simpa using this
  have hdrop : parseRowBody row = .ok none := by
    rw [parseRowBody_of_ge row h5, if_pos hflag]
  exact ⟨hflag, hnames, hdrop,
    parseGameDataAux_skip_drop idx row rest (by omega) hidx hdrop⟩

/-- C4 witness: the row `["1","d","z","w","x","A/B","C"]` carries the team
cell `A/B` in a player column and is dropped. -/
theorem team_separator_drops_game_witness :
    ("A/B" ∈ (["1","d","z","w","x","A/B","C"].drop 5) ∧
      containsSlash "A/B" = true ∧ (1:ℕ) ≠ 0) ∧
    parseRowBody ["1","d","z","w","x","A/B","C"] = .ok none ∧
    parseGameDataAux 1 [["1","d","z","w","x","A/B","C"]] = parseGameDataAux 2 [] := by
  refine ⟨⟨by decide, by decide, by decide⟩, ?_, ?_⟩
  · exact (team_separator_drops_game ["1","d","z","w","x","A/B","C"] "A/B" 1 []
      (by decide) (by decide) (by decide)).2.2.1
  · exact (team_separator_drops_game ["1","d","z","w","x","A/B","C"] "A/B" 1 []
      (by decide) (by decide) (by decide)).2.2.2

/-- C9 counterexample: the claim says all surrounding whitespace (including
tabs) is removed from player cells, so `"A\t"` should be stored as `"A"`.
The code trims only space characters: the cell `"A\t"` is stored as the
distinct key `"A\t"`. -/
theorem tab_not_trimmed :
    parseRowBody ["1","d","z","w","x","A\t"] =
      .ok (some { ID := "1", Date := "d", Rankings := ["A\t"], TableZap := "z",
                  DrawGame := "w", RankTotal := 0, RankAverage := 0,
                  TwoHeadedGiant := false }) ∧
    trimSpaces "A\t" = "A\t" ∧ ("A\t" : String) ≠ "A" :=
  ⟨rfl, rfl, by decide⟩

/-- C9 (amended): every stored player name is the cell's value trimmed of
surrounding space characters (U+0020) only — leading and trailing spaces are
removed, while other whitespace is preserved. -/
theorem player_names_trimmed_of_spaces_only :
    (∀ cells, (parsePlayers cells).1 =
      (cells.map trimSpaces).filter (fun n => !(containsSlash n))) ∧
    (∀ s : String, trimSpaces (String.mk (' ' :: s.data)) = trimSpaces s) ∧
    (∀ s : String, trimSpaces (String.mk (s.data ++ [' '])) = trimSpaces s) := by
  refine ⟨fun cells => ?_, fun s => ?_, fun s => ?_⟩
  · rw [parsePlayers_eq]
  · simp [trimSpaces, List.dropWhile_cons]
  · unfold trimSpaces
    congr 1
    simp only [List.dropWhile_append]
    cases hE : (List.dropWhile (fun c => decide (c = ' ')) s.data).isEmpty
    · simp only [hE, Bool.false_eq_true, if_neg, List.reverse_append,
        List.reverse_cons, List.reverse_nil, List.nil_append,
        List.singleton_append, List.dropWhile_cons]
      simp
    · rw [List.isEmpty_iff] at hE
      simp [hE, List.dropWhile_cons]

/-- C1: for a scoreable game (2–6 distinct participants), `scoreGame` seeds
the participants, computes `rankTotal` as the sum of their current ratings
and `rankAverage` as its truncating division by the participant count, and
gives the participant at finish position `i` the new rating
`old + ratingDelta old rankAverage w(n, i)` — with the delta applied to the
mapping handed to the rest of the batch. -/
theorem scoreGame_applies_elo_delta (s : Scores) (g : Game) (i : ℕ) (gs : List Game)
    (h2 : 2 ≤ g.Rankings.length) (h6 : g.Rankings.length ≤ 6)
    (hnd : g.Rankings.Nodup) (hi : i < g.Rankings.length) :
    ∃ r : Scores × Game,
      scoreGame ratingDelta s g = .ok r ∧
      (seedAndTotal s g.Rankings).2 =
        (g.Rankings.map (fun p => (lookupScore (seedAndTotal s g.Rankings).1 p).getD 0)).sum ∧
      lookupScore r.1 (g.Rankings.get ⟨i, hi⟩) =
        some ((lookupScore (seedAndTotal s g.Rankings).1 (g.Rankings.get ⟨i, hi⟩)).getD 0 +
          ratingDelta
            ((lookupScore (seedAndTotal s g.Rankings).1 (g.Rankings.get ⟨i, hi⟩)).getD 0)
            (Int.tdiv (seedAndTotal s g.Rankings).2 (g.Rankings.length : Int))
            (rewardWeight g.Rankings.length i)) ∧
      calculateScoresFrom ratingDelta s (g :: gs) = calculateScoresFrom ratingDelta r.1 gs := by
  refine ⟨_, scoreGame_ok_of_ge ratingDelta s g h2, seedAndTotal_total_eq s g.Rankings, ?_,
    calculateScoresFrom_cons_ok _ _ _ _ _ (scoreGame_ok_of_ge ratingDelta s g h2)⟩
  have h := updateScoresAux_lookup_get ratingDelta g.Rankings.length
    (Int.tdiv (seedAndTotal s g.Rankings).2 (g.Rankings.length : Int)) g.Rankings 0
    (seedAndTotal s g.Rankings).1 i hnd hi
  rw [Nat.zero_add,
    positionDelta_eq_rewardWeight ratingDelta g.Rankings.length i _ _ h2 h6] at h
  exact h

/-- C1 witness: a fresh two-player game between `A` and `B`; the winner `A`
moves from the seeded 1500 by `ratingDelta 1500 1500 1`. -/
theorem scoreGame_applies_elo_delta_witness :
    ∃ r : Scores × Game,
      scoreGame ratingDelta [] (duel "1" "A" "B") = .ok r ∧
      (seedAndTotal [] ["A", "B"]).2 =
        ((["A", "B"] : List String).map
          (fun p => (lookupScore (seedAndTotal [] ["A", "B"]).1 p).getD 0)).sum ∧
      lookupScore r.1 "A" = some (1500 + ratingDelta 1500 1500 1) ∧
      calculateScoresFrom ratingDelta [] [duel "1" "A" "B"] =
        calculateScoresFrom ratingDelta r.1 [] :=
  scoreGame_applies_elo_delta [] (duel "1" "A" "B") 0 []
    (by decide) (by decide) (by decide) (by decide)

/-- C2 counterexample: the claim says a 7-player game leaves the rating
mapping completely unchanged (no keys added).  In the code, `scoreGame`
still seeds every unseen participant at 1500 before the reward `switch`
falls through: a 7-player game of fresh players adds seven keys. -/
theorem seven_player_game_adds_new_keys :
    lookupScore [] "P1" = none ∧
    scoreGame ratingDelta []
      { ID := "9", Date := "", Rankings := ["P1","P2","P3","P4","P5","P6","P7"],
        TableZap := "", DrawGame := "", RankTotal := 0, RankAverage := 0,
        TwoHeadedGiant := false } =
      .ok ([("P1",1500),("P2",1500),("P3",1500),("P4",1500),("P5",1500),
            ("P6",1500),("P7",1500)],
        { ID := "9", Date := "", Rankings := ["P1","P2","P3","P4","P5","P6","P7"],
          TableZap := "", DrawGame := "", RankTotal := 10500, RankAverage := 1500,
          TwoHeadedGiant := false }) ∧
    lookupScore [("P1",1500),("P2",1500),("P3",1500),("P4",1500),("P5",1500),
      ("P6",1500),("P7",1500)] "P1" = some 1500 :=
  ⟨rfl, rfl, rfl⟩

/-- C2 (amended): scoring a game with more than 6 participants raises no
error and applies a zero delta to every participant: ratings already in the
mapping keep their values, and unseen participants are merely seeded at
1500. -/
theorem big_game_keeps_values (delta : DeltaFn) (s : Scores) (g : Game)
    (h : 6 < g.Rankings.length) :
    scoreGame delta s g =
      .ok ((seedAndTotal s g.Rankings).1,
        { g with
            RankAverage := Int.tdiv (seedAndTotal s g.Rankings).2 (g.Rankings.length : Int)
            RankTotal := (seedAndTotal s g.Rankings).2 }) ∧
    (∀ q v, lookupScore s q = some v →
      lookupScore (seedAndTotal s g.Rankings).1 q = some v) ∧
    (∀ p ∈ g.Rankings, lookupScore s p = none →
      lookupScore (seedAndTotal s g.Rankings).1 p = some 1500) := by
  have h2 : 2 ≤ g.Rankings.length := by omega
  obtain ⟨k, hk⟩ : ∃ k, g.Rankings.length = k + 7 := ⟨g.Rankings.length - 7, by omega⟩
  have hupd : updateScores delta (seedAndTotal s g.Rankings).1
      { g with
          RankAverage := Int.tdiv (seedAndTotal s g.Rankings).2 (g.Rankings.length : Int)
          RankTotal := (seedAndTotal s g.Rankings).2 } =
      (seedAndTotal s g.Rankings).1 := by
    show updateScoresAux delta g.Rankings.length
      (Int.tdiv (seedAndTotal s g.Rankings).2 (g.Rankings.length : Int)) 0
      (seedAndTotal s g.Rankings).1 g.Rankings = _
    apply updateScoresAux_zero_id
    · intro idx ps
      rw [hk]
      exact positionDelta_of_big delta k idx ps _
    · intro p hp
      exact seedAndTotal_lookup_mem s g.Rankings p hp
  refine ⟨?_, fun q v hv => seedAndTotal_lookup_eq s g.Rankings q v hv,
    fun p hp hn => seedAndTotal_lookup_new s g.Rankings p hp hn⟩
  rw [scoreGame_ok_of_ge delta s g h2, hupd]

/-- C2 (amended) witness: an 8-player game over a mapping that already
holds `A`; `A` keeps its value and the fresh players are seeded. -/
theorem big_game_keeps_values_witness :
    (6 < (8:ℕ) ∧ lookupScore [("A", 3)] "A" = some 3 ∧
      "Q1" ∈ ["Q1","Q2","Q3","Q4","Q5","Q6","Q7","Q8"] ∧
      lookupScore [("A", 3)] "Q1" = none) ∧
    lookupScore (seedAndTotal [("A", 3)]
      ["Q1","Q2","Q3","Q4","Q5","Q6","Q7","Q8"]).1 "A" = some 3 ∧
    lookupScore (seedAndTotal [("A", 3)]
      ["Q1","Q2","Q3","Q4","Q5","Q6","Q7","Q8"]).1 "Q1" = some 1500 := by
  have h := big_game_keeps_values (fun _ _ _ => 0) [("A", 3)]
    { ID := "8", Date := "", Rankings := ["Q1","Q2","Q3","Q4","Q5","Q6","Q7","Q8"],
      TableZap := "", DrawGame := "", RankTotal := 0, RankAverage := 0,
      TwoHeadedGiant := false } (by decide)
  exact ⟨⟨by decide, by decide, by decide, by decide⟩,
    h.2.1 "A" 3 (by decide), h.2.2 "Q1" (by decide) (by decide)⟩

/-- C5: a game with fewer than 2 participants is rejected with an error,
the batch continues from the unchanged mapping, and an empty game sequence
yields an empty mapping rather than an error. -/
theorem small_game_skipped (delta : DeltaFn) (s : Scores) (g : Game) (gs : List Game)
    (h : g.Rankings.length < 2) :
    scoreGame delta s g = .error "invalid game: not enough players" ∧
    calculateScoresFrom delta s (g :: gs) = calculateScoresFrom delta s gs ∧
    calculateScoresWith delta [] = [] :=
  ⟨scoreGame_error_of_small delta s g h,
    calculateScoresFrom_cons_error delta s g gs _ (scoreGame_error_of_small delta s g h),
    rfl⟩

/-- C5 witness: a zero-player game in front of a real duel is rejected and
skipped while the rest of the batch proceeds from the same mapping. -/
theorem small_game_skipped_witness :
    (gameWithID "1").Rankings.length < 2 ∧
    scoreGame ratingDelta [("A", 1600)] (gameWithID "1") =
      .error "invalid game: not enough players" ∧
    calculateScoresFrom ratingDelta [("A", 1600)] [gameWithID "1", duel "2" "B" "C"] =
      calculateScoresFrom ratingDelta [("A", 1600)] [duel "2" "B" "C"] ∧
    calculateScoresWith ratingDelta [] = [] := by
  have h := small_game_skipped ratingDelta [("A", 1600)] (gameWithID "1")
    [duel "2" "B" "C"] (by decide)
  exact ⟨by decide, h.1, h.2.1, h.2.2⟩

/-- C7: a key present in the rating mapping is still present after a whole
scoring pass; a participant absent from the mapping is seeded at 1500 by the
game that first mentions it, and its key survives that game's updates. -/
theorem rating_map_only_grows (delta : DeltaFn) (scores : Scores) (games : List Game)
    (q : String) (g : Game) (p : String) (r : Scores × Game)
    (hq : (lookupScore scores q).isSome)
    (hp : p ∈ g.Rankings) (habs : lookupScore scores p = none)
    (hr : scoreGame delta scores g = .ok r) :
    (lookupScore (calculateScoresFrom delta scores games) q).isSome ∧
    lookupScore (seedAndTotal scores g.Rankings).1 p = some 1500 ∧
    (lookupScore r.1 p).isSome := by
  have h2 : 2 ≤ g.Rankings.length := by
    by_contra hcon
    push_neg at hcon
    rw [scoreGame_error_of_small delta scores g (by omega)] at hr
    cases hr
  refine ⟨calculateScoresFrom_lookup_isSome delta games scores q hq,
    seedAndTotal_lookup_new scores g.Rankings p hp habs, ?_⟩
  rw [scoreGame_ok_of_ge delta scores g h2] at hr
  cases hr
  exact updateScoresAux_lookup_isSome _ _ _ _ _ _ _
    (seedAndTotal_lookup_mem scores g.Rankings p hp)

/-- C7 witness: `A` survives an (empty) pass, and `B` — unseen before the
duel against `C` — is seeded at 1500 and keeps a key through the game. -/
theorem rating_map_only_grows_witness :
    ((lookupScore [("A", 7)] "A").isSome ∧ "B" ∈ (duel "9" "B" "C").Rankings ∧
      lookupScore [("A", 7)] "B" = none) ∧
    (lookupScore (calculateScoresFrom (fun _ _ _ => 1) [("A", 7)] []) "A").isSome ∧
    lookupScore (seedAndTotal [("A", 7)] (duel "9" "B" "C").Rankings).1 "B" = some 1500 ∧
    (lookupScore ([("A", 7), ("B", 1501), ("C", 1501)] : Scores) "B").isSome := by
  have h := rating_map_only_grows (fun _ _ _ => 1) [("A", 7)] [] "A" (duel "9" "B" "C")
    "B" ([("A", 7), ("B", 1501), ("C", 1501)],
      { ID := "9", Date := "", Rankings := ["B", "C"], TableZap := "", DrawGame := "",
        RankTotal := 3000, RankAverage := 1500, TwoHeadedGiant := false })
    (by decide) (by decide) (by decide) rfl
  exact ⟨⟨by decide, by decide, by decide⟩, h.1, h.2.1, h.2.2⟩

/-- C6 counterexample: the claim says ties are broken deterministically by a
secondary sort on name, so two runs over the same rating mapping produce the
same list.  `ByScore.Less` compares scores only: for two players tied at
1500, both orders are valid outputs of the sort, and they differ. -/
theorem byScore_tie_not_deterministic :
    isByScoreSortOutput (playersOfScores [("A", 1500), ("B", 1500)])
      [⟨"A", 1500⟩, ⟨"B", 1500⟩] ∧
    isByScoreSortOutput (playersOfScores [("A", 1500), ("B", 1500)])
      [⟨"B", 1500⟩, ⟨"A", 1500⟩] ∧
    ([⟨"A", 1500⟩, ⟨"B", 1500⟩] : List Player) ≠ [⟨"B", 1500⟩, ⟨"A", 1500⟩] :=
  ⟨⟨List.Perm.refl _, by decide⟩, ⟨List.Perm.swap _ _ _, by decide⟩, by decide⟩

/-- C6 (amended): every valid output of the `ByScore` sort is a permutation
of the derived rankings list ordered by score descending; equal scores carry
no further ordering constraint. -/
theorem byScore_sorted_descending (inp out : List Player) (i j : ℕ)
    (h : isByScoreSortOutput inp out) (hi : i < out.length) (hj : j < out.length)
    (hij : i ≤ j) :
    (out.get ⟨j, hj⟩).Score ≤ (out.get ⟨i, hi⟩).Score ∧ out.Perm inp := by
  refine ⟨?_, h.1⟩
  rcases Nat.lt_or_ge j i with hlt | hge
  · omega
  · rcases Nat.eq_or_lt_of_le hge with heq | hlt
    · subst heq
      exact le_refl _
    · have hpw := h.2
      rw [List.pairwise_iff_get] at hpw
      have hrel := hpw ⟨i, hi⟩ ⟨j, hj⟩ hlt
      simp only [byScoreLess, decide_eq_false_iff_not] at hrel
      exact le_of_not_lt hrel

/-- C6 (amended) witness: a two-player mapping with distinct ratings has the
descending order as a valid sort output. -/
theorem byScore_sorted_descending_witness :
    isByScoreSortOutput (playersOfScores [("A", 1600), ("B", 1500)])
      [⟨"A", 1600⟩, ⟨"B", 1500⟩] ∧
    (((1500 : Int) ≤ 1600) ∧
      ([⟨"A", 1600⟩, ⟨"B", 1500⟩] : List Player).Perm
        (playersOfScores [("A", 1600), ("B", 1500)])) := by
  have hvalid : isByScoreSortOutput (playersOfScores [("A", 1600), ("B", 1500)])
      [⟨"A", 1600⟩, ⟨"B", 1500⟩] := ⟨List.Perm.refl _, by decide⟩
  exact ⟨hvalid,
    byScore_sorted_descending (playersOfScores [("A", 1600), ("B", 1500)])
      [⟨"A", 1600⟩, ⟨"B", 1500⟩] 0 1 hvalid (by decide) (by decide) (by decide)⟩

/-- C8: scoring is order-sensitive.  Two duels between `A` and `B` with
reversed outcomes, both players starting from the default 1500, give `A`
different final ratings depending on the order in which the two games are
processed (1499 one way, 1501 the other, under the spec-modelled rounding
delta). -/
theorem order_sensitive :
    lookupScore (calculateScores [duel "1" "A" "B", duel "2" "B" "A"]) "A" ≠
    lookupScore (calculateScores [duel "2" "B" "A", duel "1" "A" "B"]) "A" := by
  rw [eloFold_first_order, eloFold_second_order]
  intro h
  have h2 := Option.some.inj h
  have h3 := favorite_loss_delta
  have h4 := underdog_win_delta
  omega

/-- C10: `ByID.Less` compares game IDs as strings, so the game with ID
`"10"` sorts before the game with ID `"2"` — the only valid sort output is
`["10", "2"]` — although 2 < 10 numerically. -/
theorem byID_sort_lexicographic :
    isByIDSortOutput [gameWithID "2", gameWithID "10"]
      [gameWithID "10", gameWithID "2"] ∧
    ¬ isByIDSortOutput [gameWithID "2", gameWithID "10"]
      [gameWithID "2", gameWithID "10"] ∧
    byIDLess (gameWithID "10") (gameWithID "2") = true ∧
    Nat.repr 10 = "10" ∧ Nat.repr 2 = "2" ∧ (2:ℕ) < 10 := by
  refine ⟨⟨List.Perm.swap _ _ _, by decide⟩, ?_, by decide, rfl, rfl, by decide⟩
  intro hcon
  have hrel := List.rel_of_pairwise_cons hcon.2 (List.mem_singleton_self _)
  exact absurd hrel (by decide)
